import Mathlib

/-!
# OAuth2 token introspection middleware

A shallow embedding of `http.go` (package `introspection`): the handler built by
`Introspection`, the context plumbing it relies on and the lookup `FromContext`.

Effects are made explicit.  The world outside the handler (cache contents, the
remote endpoint, whatever the wrapped handler touches) is a state of an arbitrary
type `σ` that is threaded through every call, and the handler additionally returns
the list of calls it made itself, in order, so that statements such as
"introspect is invoked zero times" are statements about that list.
-/

namespace OAuthIntrospection

/-! ## Go values -/

/-- A Go `string`: an immutable sequence of bytes. -/
abbrev GoString := List Nat

/-- The bytes of a string literal (Go source text is UTF-8). -/
def bytes (s : String) : GoString :=
  s.toUTF8.data.toList.map UInt8.toNat

namespace strings

/-- Go standard library, `strings.HasPrefix`:
`len(s) >= len(prefix) && s[:len(prefix)] == prefix`. -/
def HasPrefix (s pre : GoString) : Bool :=
  decide (s.length ≥ pre.length) && (s.take pre.length == pre)

end strings

/-- A non-nil `error` made by `errors.New`: a pointer to a fresh `errorString`.
Two error values are equal when they are the same pointer, so the address is part
of the value; `addr` numbers the `errors.New` calls of the package in source order.
The Go interface type `error` is `Option GoError`, with `none` for `nil`. -/
structure GoError where
  addr : Nat
  text : GoString
deriving DecidableEq

/-- The value `ErrNoBearer = errors.New("no bearer")` (http.go line 21). -/
def ErrNoBearer : GoError := ⟨0, bytes "no bearer"⟩

/-- The value `ErrNoMiddleware = errors.New("introspection middleware didn't execute")`
(http.go line 23). -/
def ErrNoMiddleware : GoError := ⟨1, bytes "introspection middleware didn\x27t execute"⟩

/-- Modelled from the spec: the declaration of the `Result` struct is not part of
http.go.  The spec describes it as the parsed introspection outcome, "active/inactive
flag and associated claims/metadata returned by the endpoint".  `*Result` is
`Option Result`, with `none` for the nil pointer. -/
structure Result where
  Active : Bool
  Optionals : List (GoString × GoString)
deriving DecidableEq

/-- The unexported `result` struct (http.go lines 76-79): the Outcome of the spec. -/
structure result where
  Result : Option Result
  Err : Option GoError
deriving DecidableEq

/-! ## Contexts -/

/-- A context key is an interface value: a dynamic type and a value of that type.
Two keys are equal when both agree. -/
structure Key where
  typ : String
  val : Int
deriving DecidableEq

/-- The key `const resKey = resKeyType(1)` (http.go lines 72-74). -/
def resKey : Key := ⟨"introspection.resKeyType", 1⟩

/-- A value of type `any` as stored in a context: the nil interface, a `*result`
(possibly a nil pointer), or a value of some other dynamic type. -/
inductive Any where
  | nil
  | resultPtr (p : Option result)
  | other (typ : String) (repr : Nat)
deriving DecidableEq

/-- A `context.Context` as far as values are concerned: the background context or a
`valueCtx` wrapping a parent. -/
inductive Context where
  | background
  | valueCtx (parent : Context) (key : Key) (val : Any)
deriving DecidableEq

namespace context

/-- Go standard library, `context.WithValue(parent, key, val)`. -/
def WithValue (parent : Context) (key : Key) (val : Any) : Context :=
  .valueCtx parent key val

end context

/-- Go standard library, `ctx.Value(key)`: the value of the innermost `valueCtx`
with an equal key, or nil. -/
def Context.Value : Context → Key → Any
  | .background, _ => .nil
  | .valueCtx parent k v, key => if k = key then v else parent.Value key

/-- Whether some `valueCtx` on the chain was made with this key. -/
def Context.carries : Context → Key → Bool
  | .background, _ => false
  | .valueCtx parent k _, key => decide (k = key) || parent.carries key

/-! ## Requests -/

/-- An `http.Header`, a map from canonical header names to their values. -/
abbrev Header := List (GoString × List GoString)

/-- Go standard library, `Header.Get(key)` for a key that is already in canonical
form (as "Authorization" is): the first value stored under the key, or "". -/
def Header.Get (h : Header) (key : GoString) : GoString :=
  match h.lookup key with
  | some (v :: _) => v
  | _ => []

/-- An `*http.Request`, with the fields a handler can observe. -/
structure Request where
  Method : GoString
  URL : GoString
  Header : Header
  Body : GoString
  ctx : Context
deriving DecidableEq

/-- Go standard library, `r.Context()`. -/
def Request.Context (r : Request) : Context := r.ctx

/-- Go standard library, `r.WithContext(ctx)`: a shallow copy of `r` with its
context changed to `ctx`. -/
def Request.WithContext (r : Request) (ctx : OAuthIntrospection.Context) : Request :=
  { r with ctx := ctx }

/-- An `http.ResponseWriter`, identified by the connection it writes to. -/
structure ResponseWriter where
  conn : Nat
deriving DecidableEq

/-! ## Configuration -/

/-- Modelled from the spec: the `Cache` interface is declared outside http.go.  The
spec gives its surface as `Get(token) -> Result | absent` and
`Store(token, result, ttl)`.  Both act on the outside world `σ`. -/
structure Cache (σ : Type) where
  Get : GoString → σ → Option Result × σ
  Store : GoString → Option Result → Int → σ → σ

/-- The part of `http.Client` the constructor sets: `Timeout`, in nanoseconds. -/
structure Client where
  Timeout : Int
deriving DecidableEq

/-- Modelled from the spec: the `Options` struct is declared outside http.go.  Its
fields are the ones the constructor and the handler use (http.go lines 29-37, 54,
63-64); `cache` is an interface value, `none` when nil; `cacheExp` is a
`time.Duration` in nanoseconds. -/
structure Options (σ : Type) where
  Client : Client
  body : List (GoString × List GoString)
  header : Header
  endpoint : GoString
  cache : Option (Cache σ)
  cacheExp : Int

/-- An `Option` of the functional-options pattern: in Go a `func(*Options)` that
updates the options in place. -/
abbrev Setter (σ : Type) := Options σ → Options σ

/-- The type of the package function `introspect(token, opt)`, whose body is not part
of http.go: it is a parameter of the development.  It returns a `*Result` and an
`error` and may act on the outside world. -/
abbrev Introspect (σ : Type) :=
  GoString → Options σ → σ → (Option Result × Option GoError) × σ

/-- An `http.Handler`: `ServeHTTP(w, r)` acting on the outside world. -/
abbrev Handler (σ : Type) := ResponseWriter → Request → σ → σ

/-! ## Calls made by the middleware -/

/-- The calls a handler can make: to the cache, to `introspect`, to the wrapped
handler, and the three methods of its `http.ResponseWriter`. -/
inductive Event (σ : Type) where
  | cacheGet (token : GoString)
  | introspect (token : GoString) (opt : Options σ)
  | cacheStore (token : GoString) (res : Option Result) (ttl : Int)
  | next (w : ResponseWriter) (r : Request)
  | wHeader (w : ResponseWriter)
  | wWrite (w : ResponseWriter) (data : GoString)
  | wWriteHeader (w : ResponseWriter) (statusCode : Int)

/-- The arguments of the calls to `introspect`, in order. -/
def introspectCalls {σ : Type} (tr : List (Event σ)) : List (GoString × Options σ) :=
  tr.filterMap fun e => match e with
    | .introspect token opt => some (token, opt)
    | _ => none

/-- The arguments of the calls to `cache.Store`, in order. -/
def storeCalls {σ : Type} (tr : List (Event σ)) : List (GoString × Option Result × Int) :=
  tr.filterMap fun e => match e with
    | .cacheStore token res ttl => some (token, res, ttl)
    | _ => none

/-- The arguments of the calls to `cache.Get`, in order. -/
def getCalls {σ : Type} (tr : List (Event σ)) : List GoString :=
  tr.filterMap fun e => match e with
    | .cacheGet token => some token
    | _ => none

/-- The arguments of the calls to `next.ServeHTTP`, in order. -/
def nextCalls {σ : Type} (tr : List (Event σ)) : List (ResponseWriter × Request) :=
  tr.filterMap fun e => match e with
    | .next w r => some (w, r)
    | _ => none

/-- The response writers on which a method was called, in order. -/
def writerCalls {σ : Type} (tr : List (Event σ)) : List ResponseWriter :=
  tr.filterMap fun e => match e with
    | .wHeader w => some w
    | .wWrite w _ => some w
    | .wWriteHeader w _ => some w
    | _ => none

/-! ## The middleware -/

/-- The options built before any request is served (http.go lines 29-37):
a client with a 2 second timeout, the body and header templates and the endpoint. -/
def defaultOptions {σ : Type} (endpoint : GoString) : Options σ :=
  { Client := { Timeout := 2 * 1000000000 }
    body := [(bytes "token", [bytes ""]), (bytes "token_type_hint", [bytes "access_token"])]
    header := [(bytes "Content-Type", [bytes "application/x-www-form-urlencoded"]),
               (bytes "Accept", [bytes "application/json"])]
    endpoint := endpoint
    cache := none
    cacheExp := 0 }

/-- The loop `for _, apply := range opts { apply(opt) }` (http.go lines 39-41). -/
def applyOptions {σ : Type} (endpoint : GoString) (opts : List (Setter σ)) : Options σ :=
  opts.foldl (fun opt apply => apply opt) (defaultOptions endpoint)

/-- The context handed to the wrapped handler:
`context.WithValue(r.Context(), resKey, &result{res, err})`. -/
def decorate (r : Request) (res : Option Result) (err : Option GoError) : Request :=
  r.WithContext (context.WithValue r.Context resKey (.resultPtr (some ⟨res, err⟩)))

/-- The tail of the handler (http.go lines 61-67): call `introspect`, store a
successful answer when a cache is configured, serve the wrapped handler. -/
def introspectAndServe {σ : Type} (introspect : Introspect σ) (opt : Options σ)
    (next : Handler σ) (w : ResponseWriter) (r : Request) (token : GoString) (s : σ) :
    List (Event σ) × σ :=
  match introspect token opt s with
  | ((res, err), s1) =>
    match err, opt.cache with
    | none, some cache =>
      ([.introspect token opt, .cacheStore token res opt.cacheExp, .next w (decorate r res err)],
        next w (decorate r res err) (cache.Store token res opt.cacheExp s1))
    | _, _ =>
      ([.introspect token opt, .next w (decorate r res err)], next w (decorate r res err) s1)

/-- The credential extraction of the handler (http.go lines 47 and 52): no token
when `!strings.HasPrefix(hd, "Bearer ")`, and `hd[len("Bearer "):]` otherwise. -/
def bearerToken (hd : GoString) : Option GoString :=
  if !strings.HasPrefix hd (bytes "Bearer ") then none
  else some (hd.drop (bytes "Bearer ").length)

/-- The handler of http.go lines 44-68, for options `opt` already built.  It returns
the calls it made and the world it leaves behind. -/
def serve {σ : Type} (introspect : Introspect σ) (opt : Options σ) (next : Handler σ)
    (w : ResponseWriter) (r : Request) (s : σ) : List (Event σ) × σ :=
  match bearerToken (r.Header.Get (bytes "Authorization")) with
  | none =>
    ([.next w (decorate r none (some ErrNoBearer))], next w (decorate r none (some ErrNoBearer)) s)
  | some token =>
    match opt.cache with
    | some cache =>
      match cache.Get token s with
      | (some res, s1) =>
        ([.cacheGet token, .next w (decorate r (some res) none)],
          next w (decorate r (some res) none) s1)
      | (none, s1) =>
        let out := introspectAndServe introspect opt next w r token s1
        (.cacheGet token :: out.1, out.2)
    | none => introspectAndServe introspect opt next w r token s

/-- The constructor `Introspection(endpoint, opts...)` (http.go lines 27-70): build the options once,
then wrap `next`. -/
def Introspection {σ : Type} (introspect : Introspect σ) (endpoint : GoString)
    (opts : List (Setter σ)) (next : Handler σ) :
    ResponseWriter → Request → σ → List (Event σ) × σ :=
  serve introspect (applyOptions endpoint opts) next

/-- A failed run of Go code. -/
inductive Panic where
  | nilDereference
deriving DecidableEq

deriving instance DecidableEq for Except

/-- The lookup `FromContext` (http.go lines 82-88).  The type assertion `.(*result)` succeeds
for every value of dynamic type `*result`, a nil pointer included, and reading a
field through a nil pointer panics. -/
def FromContext (ctx : Context) : Except Panic (Option Result × Option GoError) :=
  match ctx.Value resKey with
  | .resultPtr (some val) => .ok (val.Result, val.Err)
  | .resultPtr none => .error .nilDereference
  | _ => .ok (none, some ErrNoMiddleware)

/-! ## A concrete world, for evaluating the model -/

/-- A world with an in-memory cache, a counter of the calls that reached the remote
endpoint, and the requests the wrapped handler has served. -/
structure World where
  entries : List (GoString × Result)
  remoteCalls : Nat
  served : List Request
deriving DecidableEq

/-- An in-memory cache whose entries never expire: `Get` reads the newest entry of
the token, `Store` adds an entry (a nil result is not kept). -/
def memCache : Cache World where
  Get token s := (s.entries.lookup token, s)
  Store token res _ s :=
    match res with
    | some v => { s with entries := (token, v) :: s.entries }
    | none => s

/-- A stub for `introspect` which counts its calls and always gives the same answer. -/
def stubIntrospect (answer : Option Result × Option GoError) : Introspect World :=
  fun _ _ s => (answer, { s with remoteCalls := s.remoteCalls + 1 })

/-- A wrapped handler which records the request it is given. -/
def recordNext : Handler World :=
  fun _ r s => { s with served := s.served ++ [r] }

/-- The option which configures a cache and the lifetime of its entries. -/
def withCache {σ : Type} (c : Cache σ) (ttl : Int) : Setter σ :=
  fun opt => { opt with cache := some c, cacheExp := ttl }

/-- A GET request for "/" whose only header is `Authorization: hd`. -/
def requestWith (hd : String) : Request :=
  { Method := bytes "GET", URL := bytes "/", Header := [(bytes "Authorization", [bytes hd])],
    Body := [], ctx := .background }

/-- The empty world. -/
def emptyWorld : World := { entries := [], remoteCalls := 0, served := [] }

/-! ## Basic facts -/

theorem hasPrefix_iff (s pre : GoString) :
    strings.HasPrefix s pre = true ↔ s = pre ++ s.drop pre.length := by
  unfold strings.HasPrefix
  constructor
  · intro h
    simp only [Bool.and_eq_true, decide_eq_true_eq, beq_iff_eq] at h
    conv_lhs => rw [← List.take_append_drop pre.length s]
    rw [h.2]
  · intro h
    have hlen : pre.length ≤ s.length := by
      have := congrArg List.length h
      simp only [List.length_append] at this
      omega
    have htake : s.take pre.length = pre := by
      conv_lhs => rw [h]
      simp
    simp [hlen, htake]

theorem bearerToken_eq_some_iff (hd tok : GoString) :
    bearerToken hd = some tok ↔ hd = bytes "Bearer " ++ tok := by
  unfold bearerToken
  constructor
  · intro h
    by_cases hp : strings.HasPrefix hd (bytes "Bearer ") = true
    · simp only [hp, Bool.not_true, Bool.false_eq_true, if_false, Option.some.injEq] at h
      rw [← h]
      exact (hasPrefix_iff _ _).1 hp
    · simp [hp] at h
  · intro h
    have hp : strings.HasPrefix hd (bytes "Bearer ") = true := by
      rw [hasPrefix_iff]
      conv_lhs => rw [h]
      rw [h, List.drop_left]
    simp only [hp, Bool.not_true, Bool.false_eq_true, if_false, Option.some.injEq]
    rw [h, List.drop_left]

theorem bearerToken_eq_none_iff (hd : GoString) :
    bearerToken hd = none ↔ strings.HasPrefix hd (bytes "Bearer ") = false := by
  unfold bearerToken
  by_cases hp : strings.HasPrefix hd (bytes "Bearer ") = true <;> simp [hp]

theorem fromContext_decorate (r : Request) (res : Option Result) (err : Option GoError) :
    FromContext (decorate r res err).Context = .ok (res, err) := by
  simp [FromContext, decorate, Request.WithContext, Request.Context, context.WithValue,
    Context.Value]

theorem value_of_not_carries (ctx : Context) (key : Key) (h : ctx.carries key = false) :
    ctx.Value key = .nil := by
  induction ctx with
  | background => rfl
  | valueCtx parent k v ih =>
    simp only [Context.carries, Bool.or_eq_false_iff, decide_eq_false_iff_not] at h
    simp [Context.Value, h.1, ih h.2]

/-! ## The paths of the handler -/

theorem serve_noBearer {σ : Type} (introspect : Introspect σ) (opt : Options σ)
    (next : Handler σ) (w : ResponseWriter) (r : Request) (s : σ)
    (h : bearerToken (r.Header.Get (bytes "Authorization")) = none) :
    serve introspect opt next w r s =
      ([.next w (decorate r none (some ErrNoBearer))],
        next w (decorate r none (some ErrNoBearer)) s) := by
  unfold serve
  rw [h]

theorem serve_hit {σ : Type} (introspect : Introspect σ) (opt : Options σ)
    (next : Handler σ) (w : ResponseWriter) (r : Request) (s : σ)
    (token : GoString) (cache : Cache σ) (res : Result) (s1 : σ)
    (h : bearerToken (r.Header.Get (bytes "Authorization")) = some token)
    (hc : opt.cache = some cache) (hg : cache.Get token s = (some res, s1)) :
    serve introspect opt next w r s =
      ([.cacheGet token, .next w (decorate r (some res) none)],
        next w (decorate r (some res) none) s1) := by
  unfold serve
  rw [h]
  simp only [hc, hg]

theorem serve_miss {σ : Type} (introspect : Introspect σ) (opt : Options σ)
    (next : Handler σ) (w : ResponseWriter) (r : Request) (s : σ)
    (token : GoString) (cache : Cache σ) (s1 : σ)
    (h : bearerToken (r.Header.Get (bytes "Authorization")) = some token)
    (hc : opt.cache = some cache) (hg : cache.Get token s = (none, s1)) :
    serve introspect opt next w r s =
      (.cacheGet token :: (introspectAndServe introspect opt next w r token s1).1,
        (introspectAndServe introspect opt next w r token s1).2) := by
  unfold serve
  rw [h]
  simp only [hc, hg]

theorem serve_noCache {σ : Type} (introspect : Introspect σ) (opt : Options σ)
    (next : Handler σ) (w : ResponseWriter) (r : Request) (s : σ) (token : GoString)
    (h : bearerToken (r.Header.Get (bytes "Authorization")) = some token)
    (hc : opt.cache = none) :
    serve introspect opt next w r s = introspectAndServe introspect opt next w r token s := by
  unfold serve
  rw [h]
  simp only [hc]

theorem introspectAndServe_store {σ : Type} (introspect : Introspect σ) (opt : Options σ)
    (next : Handler σ) (w : ResponseWriter) (r : Request) (s : σ) (token : GoString)
    (cache : Cache σ) (res : Option Result) (s1 : σ)
    (hi : introspect token opt s = ((res, none), s1)) (hc : opt.cache = some cache) :
    introspectAndServe introspect opt next w r token s =
      ([.introspect token opt, .cacheStore token res opt.cacheExp,
          .next w (decorate r res none)],
        next w (decorate r res none) (cache.Store token res opt.cacheExp s1)) := by
  unfold introspectAndServe
  simp only [hi, hc]

theorem introspectAndServe_noStore {σ : Type} (introspect : Introspect σ) (opt : Options σ)
    (next : Handler σ) (w : ResponseWriter) (r : Request) (s : σ) (token : GoString)
    (res : Option Result) (err : Option GoError) (s1 : σ)
    (hi : introspect token opt s = ((res, err), s1))
    (h : err ≠ none ∨ opt.cache = none) :
    introspectAndServe introspect opt next w r token s =
      ([.introspect token opt, .next w (decorate r res err)],
        next w (decorate r res err) s1) := by
  unfold introspectAndServe
  rw [hi]
  rcases h with h | h
  · cases err with
    | none => exact absurd rfl h
    | some e => rfl
  · rw [h]
    cases err <;> rfl

theorem introspectCalls_introspectAndServe {σ : Type} (introspect : Introspect σ)
    (opt : Options σ) (next : Handler σ) (w : ResponseWriter) (r : Request) (s : σ)
    (token : GoString) :
    introspectCalls (introspectAndServe introspect opt next w r token s).1 = [(token, opt)] := by
  rcases hi : introspect token opt s with ⟨⟨res, err⟩, s1⟩
  cases hc : opt.cache with
  | none =>
    rw [introspectAndServe_noStore introspect opt next w r s token res err s1 hi (Or.inr hc)]
    rfl
  | some cache =>
    cases err with
    | none =>
      rw [introspectAndServe_store introspect opt next w r s token cache res s1 hi hc]
      rfl
    | some e =>
      rw [introspectAndServe_noStore introspect opt next w r s token res (some e) s1 hi
        (Or.inl (by simp))]
      rfl

/-- The five runs of the handler: no bearer; cache hit; cache miss and a successful
introspection, which is stored; cache miss and a failed introspection; no cache. -/
theorem serve_shape {σ : Type} (introspect : Introspect σ) (opt : Options σ)
    (next : Handler σ) (w : ResponseWriter) (r : Request) (s : σ) :
    (bearerToken (r.Header.Get (bytes "Authorization")) = none ∧
      serve introspect opt next w r s =
        ([.next w (decorate r none (some ErrNoBearer))],
          next w (decorate r none (some ErrNoBearer)) s)) ∨
    (∃ token cache res s1,
      bearerToken (r.Header.Get (bytes "Authorization")) = some token ∧
      opt.cache = some cache ∧ cache.Get token s = (some res, s1) ∧
      serve introspect opt next w r s =
        ([.cacheGet token, .next w (decorate r (some res) none)],
          next w (decorate r (some res) none) s1)) ∨
    (∃ token cache s1 res s2,
      bearerToken (r.Header.Get (bytes "Authorization")) = some token ∧
      opt.cache = some cache ∧ cache.Get token s = (none, s1) ∧
      introspect token opt s1 = ((res, none), s2) ∧
      serve introspect opt next w r s =
        ([.cacheGet token, .introspect token opt, .cacheStore token res opt.cacheExp,
            .next w (decorate r res none)],
          next w (decorate r res none) (cache.Store token res opt.cacheExp s2))) ∨
    (∃ token cache s1 res e s2,
      bearerToken (r.Header.Get (bytes "Authorization")) = some token ∧
      opt.cache = some cache ∧ cache.Get token s = (none, s1) ∧
      introspect token opt s1 = ((res, some e), s2) ∧
      serve introspect opt next w r s =
        ([.cacheGet token, .introspect token opt, .next w (decorate r res (some e))],
          next w (decorate r res (some e)) s2)) ∨
    (∃ token res err s2,
      bearerToken (r.Header.Get (bytes "Authorization")) = some token ∧
      opt.cache = none ∧ introspect token opt s = ((res, err), s2) ∧
      serve introspect opt next w r s =
        ([.introspect token opt, .next w (decorate r res err)],
          next w (decorate r res err) s2)) := by
  cases hb : bearerToken (r.Header.Get (bytes "Authorization")) with
  | none => exact Or.inl ⟨rfl, serve_noBearer introspect opt next w r s hb⟩
  | some token =>
    right
    cases hc : opt.cache with
    | none =>
      right; right; right
      rcases hi : introspect token opt s with ⟨⟨res, err⟩, s2⟩
      refine ⟨token, res, err, s2, rfl, rfl, hi, ?_⟩
      rw [serve_noCache introspect opt next w r s token hb hc,
        introspectAndServe_noStore introspect opt next w r s token res err s2 hi (Or.inr hc)]
    | some cache =>
      rcases hg : cache.Get token s with ⟨got, s1⟩
      cases got with
      | some res =>
        exact Or.inl ⟨token, cache, res, s1, rfl, rfl, hg,
          serve_hit introspect opt next w r s token cache res s1 hb hc hg⟩
      | none =>
        right
        rcases hi : introspect token opt s1 with ⟨⟨res, err⟩, s2⟩
        cases err with
        | none =>
          refine Or.inl ⟨token, cache, s1, res, s2, rfl, rfl, hg, hi, ?_⟩
          rw [serve_miss introspect opt next w r s token cache s1 hb hc hg,
            introspectAndServe_store introspect opt next w r s1 token cache res s2 hi hc]
        | some e =>
          refine Or.inr (Or.inl ⟨token, cache, s1, res, e, s2, rfl, rfl, hg, hi, ?_⟩)
          rw [serve_miss introspect opt next w r s token cache s1 hb hc hg,
            introspectAndServe_noStore introspect opt next w r s1 token res (some e) s2 hi
              (Or.inl (by simp))]

/-! ## Requests without a bearer token -/

/-- C1: when the Authorization header is absent (the empty string) or does not start
with "Bearer ", then for every configuration the handler makes a single call, to the
wrapped handler, with a context on which FromContext returns (nil, ErrNoBearer); it
does not touch the cache and it calls introspect zero times. -/
theorem C1_no_bearer {σ : Type} (introspect : Introspect σ) (endpoint : GoString)
    (opts : List (Setter σ)) (next : Handler σ) (w : ResponseWriter) (r : Request) (s : σ)
    (h : r.Header.Get (bytes "Authorization") = [] ∨
      strings.HasPrefix (r.Header.Get (bytes "Authorization")) (bytes "Bearer ") = false) :
    ∃ r1, Introspection introspect endpoint opts next w r s = ([.next w r1], next w r1 s) ∧
      nextCalls (Introspection introspect endpoint opts next w r s).1 = [(w, r1)] ∧
      FromContext r1.Context = .ok (none, some ErrNoBearer) ∧
      (introspectCalls (Introspection introspect endpoint opts next w r s).1).length = 0 := by
  have hp : strings.HasPrefix (r.Header.Get (bytes "Authorization")) (bytes "Bearer ") = false := by
    rcases h with h | h
    · rw [h]; decide
    · exact h
  have hrun := serve_noBearer introspect (applyOptions endpoint opts) next w r s
    ((bearerToken_eq_none_iff _).2 hp)
  refine ⟨decorate r none (some ErrNoBearer), hrun, ?_, fromContext_decorate r _ _, ?_⟩
  · unfold Introspection; rw [hrun]; rfl
  · unfold Introspection; rw [hrun]; rfl

/-- C1 at a request carrying "Authorization: Token abc123", with a cache configured
that holds an entry for abc123. -/
theorem C1_no_bearer_witness :
    strings.HasPrefix ((requestWith "Token abc123").Header.Get (bytes "Authorization"))
      (bytes "Bearer ") = false ∧
    ∃ r1, Introspection (stubIntrospect (some ⟨true, []⟩, none)) (bytes "https://as.example/introspect")
        [withCache memCache 60000000000] recordNext ⟨1⟩ (requestWith "Token abc123")
        ⟨[(bytes "abc123", ⟨true, []⟩)], 0, []⟩ =
        ([.next ⟨1⟩ r1], recordNext ⟨1⟩ r1 ⟨[(bytes "abc123", ⟨true, []⟩)], 0, []⟩) ∧
      nextCalls (Introspection (stubIntrospect (some ⟨true, []⟩, none))
        (bytes "https://as.example/introspect")
        [withCache memCache 60000000000] recordNext ⟨1⟩ (requestWith "Token abc123")
        ⟨[(bytes "abc123", ⟨true, []⟩)], 0, []⟩).1 = [(⟨1⟩, r1)] ∧
      FromContext r1.Context = .ok (none, some ErrNoBearer) ∧
      (introspectCalls (Introspection (stubIntrospect (some ⟨true, []⟩, none))
        (bytes "https://as.example/introspect")
        [withCache memCache 60000000000] recordNext ⟨1⟩ (requestWith "Token abc123")
        ⟨[(bytes "abc123", ⟨true, []⟩)], 0, []⟩).1).length = 0 :=
  ⟨by decide, C1_no_bearer _ _ _ _ _ _ _ (Or.inr (by decide))⟩

/-! ## Credential extraction -/

/-- C2: a token is extracted from a header value exactly when the value is "Bearer "
(7 bytes, capital B, one space) followed by the token, and the token is the value
without its first 7 bytes, untrimmed; "bearer x", "BEARER x" and "Bearer" give no
token; "Bearer " gives the empty token, which the handler looks up in the cache or
sends to introspect like any other token. -/
theorem C2_bearer_extraction :
    (bytes "Bearer ").length = 7 ∧
    (∀ hd tok : GoString, bearerToken hd = some tok ↔ hd = bytes "Bearer " ++ tok) ∧
    (∀ hd : GoString, bearerToken hd ≠ none ↔
      strings.HasPrefix hd (bytes "Bearer ") = true) ∧
    (∀ hd tok : GoString, bearerToken hd = some tok → tok = hd.drop 7) ∧
    bearerToken (bytes "bearer x") = none ∧
    bearerToken (bytes "BEARER x") = none ∧
    bearerToken (bytes "Bearer") = none ∧
    bearerToken (bytes "Bearer  x ") = some (bytes " x ") ∧
    bearerToken (bytes "Bearer ") = some [] ∧
    (∀ (σ : Type) (introspect : Introspect σ) (endpoint : GoString) (opts : List (Setter σ))
      (next : Handler σ) (w : ResponseWriter) (r : Request) (s : σ),
      r.Header.Get (bytes "Authorization") = bytes "Bearer " →
      getCalls (Introspection introspect endpoint opts next w r s).1 = [[]] ∨
      (introspectCalls (Introspection introspect endpoint opts next w r s).1).map Prod.fst
        = [[]]) := by
  refine ⟨by decide, bearerToken_eq_some_iff, ?_, ?_, by decide, by decide, by decide,
    by decide, by decide, ?_⟩
  · intro hd
    rw [Ne, bearerToken_eq_none_iff]
    cases strings.HasPrefix hd (bytes "Bearer ") <;> simp
  · intro hd tok h
    have h1 := (bearerToken_eq_some_iff hd tok).1 h
    rw [h1]
    have h7 : (bytes "Bearer ").length = 7 := by decide
    rw [← h7, List.drop_left]
  · intro σ introspect endpoint opts next w r s hhd
    have hb : bearerToken (r.Header.Get (bytes "Authorization")) = some [] := by
      rw [hhd]; decide
    unfold Introspection
    rcases serve_shape introspect (applyOptions endpoint opts) next w r s with
      ⟨h0, _⟩ | ⟨t, c, res, s1, ht, _, _, hrun⟩ | ⟨t, c, s1, res, s2, ht, _, _, _, hrun⟩ |
      ⟨t, c, s1, res, e, s2, ht, _, _, _, hrun⟩ | ⟨t, res, err, s2, ht, _, _, hrun⟩
    · rw [hb] at h0; exact absurd h0 (by simp)
    all_goals
      rw [hb] at ht
      cases ht
      rw [hrun]
      simp [getCalls, introspectCalls]

/-! ## Cache hits -/

/-- C3: for a request carrying "Bearer " followed by a token, when a cache is
configured and its Get returns a non-nil Result for the token, the handler calls Get
and then the wrapped handler, with a context on which FromContext returns that Result
and a nil error; introspect is called zero times. -/
theorem C3_cache_hit {σ : Type} (introspect : Introspect σ) (endpoint : GoString)
    (opts : List (Setter σ)) (next : Handler σ) (w : ResponseWriter) (r : Request) (s : σ)
    (token : GoString) (cache : Cache σ) (res : Result) (s1 : σ)
    (hhd : r.Header.Get (bytes "Authorization") = bytes "Bearer " ++ token)
    (hcache : (applyOptions endpoint opts).cache = some cache)
    (hget : cache.Get token s = (some res, s1)) :
    ∃ r1, Introspection introspect endpoint opts next w r s =
        ([.cacheGet token, .next w r1], next w r1 s1) ∧
      nextCalls (Introspection introspect endpoint opts next w r s).1 = [(w, r1)] ∧
      FromContext r1.Context = .ok (some res, none) ∧
      (introspectCalls (Introspection introspect endpoint opts next w r s).1).length = 0 := by
  have hrun := serve_hit introspect (applyOptions endpoint opts) next w r s token cache res s1
    ((bearerToken_eq_some_iff _ _).2 hhd) hcache hget
  refine ⟨decorate r (some res) none, hrun, ?_, fromContext_decorate r _ _, ?_⟩
  · unfold Introspection; rw [hrun]; rfl
  · unfold Introspection; rw [hrun]; rfl

/-- C3 at the scenario of the spec: the cache holds xyz -> Result with Active false,
the request carries "Bearer xyz"; the stub endpoint would answer Active true. -/
theorem C3_cache_hit_witness :
    (requestWith "Bearer xyz").Header.Get (bytes "Authorization") =
      bytes "Bearer " ++ bytes "xyz" ∧
    memCache.Get (bytes "xyz") ⟨[(bytes "xyz", ⟨false, []⟩)], 0, []⟩ =
      (some ⟨false, []⟩, ⟨[(bytes "xyz", ⟨false, []⟩)], 0, []⟩) ∧
    ∃ r1, Introspection (stubIntrospect (some ⟨true, []⟩, none))
        (bytes "https://as.example/introspect") [withCache memCache 60000000000]
        recordNext ⟨1⟩ (requestWith "Bearer xyz") ⟨[(bytes "xyz", ⟨false, []⟩)], 0, []⟩ =
        ([.cacheGet (bytes "xyz"), .next ⟨1⟩ r1],
          recordNext ⟨1⟩ r1 ⟨[(bytes "xyz", ⟨false, []⟩)], 0, []⟩) ∧
      nextCalls (Introspection (stubIntrospect (some ⟨true, []⟩, none))
        (bytes "https://as.example/introspect") [withCache memCache 60000000000]
        recordNext ⟨1⟩ (requestWith "Bearer xyz")
        ⟨[(bytes "xyz", ⟨false, []⟩)], 0, []⟩).1 = [(⟨1⟩, r1)] ∧
      FromContext r1.Context = .ok (some ⟨false, []⟩, none) ∧
      (introspectCalls (Introspection (stubIntrospect (some ⟨true, []⟩, none))
        (bytes "https://as.example/introspect") [withCache memCache 60000000000]
        recordNext ⟨1⟩ (requestWith "Bearer xyz")
        ⟨[(bytes "xyz", ⟨false, []⟩)], 0, []⟩).1).length = 0 :=
  ⟨by decide, by decide, C3_cache_hit _ _ _ _ _ _ _ _ memCache _ _ (by decide) rfl (by decide)⟩

/-! ## Introspection -/

/-- C4: for a request carrying "Bearer " followed by a token, when no cache is
configured or the cache misses, introspect is called exactly once, with that token and
the configured options, and the wrapped handler receives a context on which
FromContext returns exactly the pair that call returned. -/
theorem C4_introspect_once {σ : Type} (introspect : Introspect σ) (endpoint : GoString)
    (opts : List (Setter σ)) (next : Handler σ) (w : ResponseWriter) (r : Request) (s : σ)
    (token : GoString) (res : Option Result) (err : Option GoError) (s1 s2 : σ)
    (hhd : r.Header.Get (bytes "Authorization") = bytes "Bearer " ++ token)
    (hmiss : ((applyOptions endpoint opts).cache = none ∧ s1 = s) ∨
      ∃ cache, (applyOptions endpoint opts).cache = some cache ∧
        cache.Get token s = (none, s1))
    (hint : introspect token (applyOptions endpoint opts) s1 = ((res, err), s2)) :
    introspectCalls (Introspection introspect endpoint opts next w r s).1 =
      [(token, applyOptions endpoint opts)] ∧
    ∃ r1, nextCalls (Introspection introspect endpoint opts next w r s).1 = [(w, r1)] ∧
      FromContext r1.Context = .ok (res, err) := by
  have hb := (bearerToken_eq_some_iff _ _).2 hhd
  unfold Introspection
  rcases hmiss with ⟨hc, rfl⟩ | ⟨cache, hc, hg⟩
  · rw [serve_noCache introspect _ next w r _ token hb hc,
      introspectAndServe_noStore introspect _ next w r _ token res err s2 hint (Or.inr hc)]
    exact ⟨rfl, decorate r res err, rfl, fromContext_decorate r res err⟩
  · rw [serve_miss introspect _ next w r s token cache s1 hb hc hg]
    cases err with
    | none =>
      rw [introspectAndServe_store introspect _ next w r s1 token cache res s2 hint hc]
      exact ⟨rfl, decorate r res none, rfl, fromContext_decorate r res none⟩
    | some e =>
      rw [introspectAndServe_noStore introspect _ next w r s1 token res (some e) s2 hint
        (Or.inl (by simp))]
      exact ⟨rfl, decorate r res (some e), rfl, fromContext_decorate r res (some e)⟩

/-- C4 at scenario A of the spec: "Bearer abc123", no cache configured, the stub
endpoint answers Active true. -/
theorem C4_introspect_once_witness :
    (requestWith "Bearer abc123").Header.Get (bytes "Authorization") =
      bytes "Bearer " ++ bytes "abc123" ∧
    introspectCalls (Introspection (stubIntrospect (some ⟨true, []⟩, none))
        (bytes "https://as.example/introspect") [] recordNext ⟨1⟩
        (requestWith "Bearer abc123") emptyWorld).1 =
      [(bytes "abc123", applyOptions (bytes "https://as.example/introspect") [])] ∧
    ∃ r1, nextCalls (Introspection (stubIntrospect (some ⟨true, []⟩, none))
        (bytes "https://as.example/introspect") [] recordNext ⟨1⟩
        (requestWith "Bearer abc123") emptyWorld).1 = [(⟨1⟩, r1)] ∧
      FromContext r1.Context = .ok (some ⟨true, []⟩, none) :=
  ⟨by decide, C4_introspect_once (stubIntrospect (some ⟨true, []⟩, none)) _ [] recordNext ⟨1⟩
    (requestWith "Bearer abc123") emptyWorld (bytes "abc123") (some ⟨true, []⟩) none emptyWorld
    ⟨[], 1, []⟩ (by decide) (Or.inl ⟨rfl, rfl⟩) rfl⟩

/-! ## The lookup function -/

/-- C6: on a context that carries no value under resKey, FromContext returns
(nil, ErrNoMiddleware); and ErrNoMiddleware is not the error value ErrNoBearer. -/
theorem C6_no_middleware (ctx : Context) (h : ctx.carries resKey = false) :
    FromContext ctx = .ok (none, some ErrNoMiddleware) ∧ ErrNoMiddleware ≠ ErrNoBearer := by
  refine ⟨?_, by decide⟩
  unfold FromContext
  rw [value_of_not_carries ctx resKey h]

/-- C6 at a context that holds a value under a key of another package. -/
theorem C6_no_middleware_witness :
    (Context.valueCtx .background ⟨"main.userKey", 1⟩ (.other "string" 7)).carries resKey
      = false ∧
    (FromContext (Context.valueCtx .background ⟨"main.userKey", 1⟩ (.other "string" 7)) =
      .ok (none, some ErrNoMiddleware) ∧ ErrNoMiddleware ≠ ErrNoBearer) :=
  ⟨by decide, C6_no_middleware _ (by decide)⟩

/-! ## What every run has in common -/

/-- C7: for every request and every configuration the handler calls the wrapped
handler exactly once, as its last call, and the context it passes is the inbound
context extended by one value under resKey, an Outcome `o` made by this run, so that
the lookup under resKey finds `o` and FromContext returns the components of `o`. -/
theorem C7_next_once_with_outcome {σ : Type} (introspect : Introspect σ)
    (endpoint : GoString) (opts : List (Setter σ)) (next : Handler σ) (w : ResponseWriter)
    (r : Request) (s : σ) :
    ∃ (o : result) (before : List (Event σ)),
      (Introspection introspect endpoint opts next w r s).1 =
        before ++ [.next w (r.WithContext
          (context.WithValue r.Context resKey (.resultPtr (some o))))] ∧
      nextCalls before = [] ∧
      nextCalls (Introspection introspect endpoint opts next w r s).1 =
        [(w, r.WithContext (context.WithValue r.Context resKey (.resultPtr (some o))))] ∧
      (r.WithContext (context.WithValue r.Context resKey
        (.resultPtr (some o)))).Context.Value resKey = .resultPtr (some o) ∧
      FromContext (r.WithContext (context.WithValue r.Context resKey
        (.resultPtr (some o)))).Context = .ok (o.Result, o.Err) := by
  have hval : ∀ o : result, (r.WithContext (context.WithValue r.Context resKey
      (.resultPtr (some o)))).Context.Value resKey = .resultPtr (some o) := by
    intro o
    simp [Request.WithContext, Request.Context, context.WithValue, Context.Value]
  have hfc : ∀ o : result, FromContext (r.WithContext (context.WithValue r.Context resKey
      (.resultPtr (some o)))).Context = .ok (o.Result, o.Err) := by
    intro o
    exact fromContext_decorate r o.Result o.Err
  unfold Introspection
  rcases serve_shape introspect (applyOptions endpoint opts) next w r s with
    ⟨_, hrun⟩ | ⟨t, c, res, s1, _, _, _, hrun⟩ | ⟨t, c, s1, res, s2, _, _, _, _, hrun⟩ |
    ⟨t, c, s1, res, e, s2, _, _, _, _, hrun⟩ | ⟨t, res, err, s2, _, _, _, hrun⟩
  · exact ⟨⟨none, some ErrNoBearer⟩, [], by rw [hrun]; rfl, rfl, by rw [hrun]; rfl,
      hval _, hfc _⟩
  · exact ⟨⟨some res, none⟩, [.cacheGet t], by rw [hrun]; rfl, rfl, by rw [hrun]; rfl,
      hval _, hfc _⟩
  · exact ⟨⟨res, none⟩, [.cacheGet t, .introspect t _, .cacheStore t res _],
      by rw [hrun]; rfl, rfl, by rw [hrun]; rfl, hval _, hfc _⟩
  · exact ⟨⟨res, some e⟩, [.cacheGet t, .introspect t _], by rw [hrun]; rfl, rfl,
      by rw [hrun]; rfl, hval _, hfc _⟩
  · exact ⟨⟨res, err⟩, [.introspect t _], by rw [hrun]; rfl, rfl, by rw [hrun]; rfl,
      hval _, hfc _⟩

/-- C9: on every run the handler calls no method of the response writer, and its one
call to the wrapped handler passes the response writer it received and a request with
the same method, URL, headers and body, whose context is the inbound context extended
with the Outcome. -/
theorem C9_pure_decoration {σ : Type} (introspect : Introspect σ) (endpoint : GoString)
    (opts : List (Setter σ)) (next : Handler σ) (w : ResponseWriter) (r : Request) (s : σ) :
    writerCalls (Introspection introspect endpoint opts next w r s).1 = [] ∧
    ∃ r1, nextCalls (Introspection introspect endpoint opts next w r s).1 = [(w, r1)] ∧
      r1.Method = r.Method ∧ r1.URL = r.URL ∧ r1.Header = r.Header ∧ r1.Body = r.Body ∧
      ∃ o : result, r1.Context = context.WithValue r.Context resKey (.resultPtr (some o)) ∧
        r1 = { r with ctx := context.WithValue r.Context resKey (.resultPtr (some o)) } := by
  unfold Introspection
  rcases serve_shape introspect (applyOptions endpoint opts) next w r s with
    ⟨_, hrun⟩ | ⟨t, c, res, s1, _, _, _, hrun⟩ | ⟨t, c, s1, res, s2, _, _, _, _, hrun⟩ |
    ⟨t, c, s1, res, e, s2, _, _, _, _, hrun⟩ | ⟨t, res, err, s2, _, _, _, hrun⟩
  · rw [hrun]
    exact ⟨rfl, _, rfl, rfl, rfl, rfl, rfl, ⟨none, some ErrNoBearer⟩, rfl, rfl⟩
  · rw [hrun]
    exact ⟨rfl, _, rfl, rfl, rfl, rfl, rfl, ⟨some res, none⟩, rfl, rfl⟩
  · rw [hrun]
    exact ⟨rfl, _, rfl, rfl, rfl, rfl, rfl, ⟨res, none⟩, rfl, rfl⟩
  · rw [hrun]
    exact ⟨rfl, _, rfl, rfl, rfl, rfl, rfl, ⟨res, some e⟩, rfl, rfl⟩
  · rw [hrun]
    exact ⟨rfl, _, rfl, rfl, rfl, rfl, rfl, ⟨res, err⟩, rfl, rfl⟩

/-! ## The shape of the Outcome -/

/-- C10, refuted as stated: with a cache-less configuration and a request carrying
"Bearer abc123", when introspect returns a non-nil Result together with a non-nil
error FromContext returns both, and when it returns (nil, nil) FromContext returns
(nil, nil). -/
theorem C10_outcome_not_exclusive :
    (nextCalls (Introspection
        (stubIntrospect (some ⟨true, []⟩, some ⟨2, bytes "unexpected EOF"⟩))
        (bytes "https://as.example/introspect") [] recordNext ⟨1⟩
        (requestWith "Bearer abc123") emptyWorld).1).map (fun c => FromContext c.2.Context)
      = [.ok (some ⟨true, []⟩, some ⟨2, bytes "unexpected EOF"⟩)] ∧
    (nextCalls (Introspection (stubIntrospect (none, none))
        (bytes "https://as.example/introspect") [] recordNext ⟨1⟩
        (requestWith "Bearer abc123") emptyWorld).1).map (fun c => FromContext c.2.Context)
      = [.ok (none, none)] := by
  decide

/-- C10, amended: the wrapped handler is called exactly once, and what FromContext
returns on the context it is given is fixed by the path.  Without a bearer token it is
(nil, ErrNoBearer) and introspect is not called.  On a cache hit it is the non-nil
Result that cache.Get returned, with a nil error, and introspect is not called.
Otherwise it is the pair returned by the one call to introspect, unchanged, whatever
that pair is; so exactly one component is meaningful on the first two paths, and on
the third if and only if that is so of the pair introspect returned.  Every request is
on one of the three paths. -/
theorem C10_outcome_shape {σ : Type} (introspect : Introspect σ) (endpoint : GoString)
    (opts : List (Setter σ)) (next : Handler σ) (w : ResponseWriter) (r : Request) (s : σ) :
    (nextCalls (Introspection introspect endpoint opts next w r s).1).length = 1 ∧
    (strings.HasPrefix (r.Header.Get (bytes "Authorization")) (bytes "Bearer ") = false →
      (nextCalls (Introspection introspect endpoint opts next w r s).1).map
          (fun c => FromContext c.2.Context) = [.ok (none, some ErrNoBearer)] ∧
        introspectCalls (Introspection introspect endpoint opts next w r s).1 = []) ∧
    (∀ token cache v s1,
      r.Header.Get (bytes "Authorization") = bytes "Bearer " ++ token →
      (applyOptions endpoint opts).cache = some cache →
      cache.Get token s = (some v, s1) →
      (nextCalls (Introspection introspect endpoint opts next w r s).1).map
          (fun c => FromContext c.2.Context) = [.ok (some v, none)] ∧
        introspectCalls (Introspection introspect endpoint opts next w r s).1 = []) ∧
    (∀ token s1 res err s2,
      r.Header.Get (bytes "Authorization") = bytes "Bearer " ++ token →
      (((applyOptions endpoint opts).cache = none ∧ s1 = s) ∨
        ∃ cache, (applyOptions endpoint opts).cache = some cache ∧
          cache.Get token s = (none, s1)) →
      introspect token (applyOptions endpoint opts) s1 = ((res, err), s2) →
      (nextCalls (Introspection introspect endpoint opts next w r s).1).map
          (fun c => FromContext c.2.Context) = [.ok (res, err)] ∧
        introspectCalls (Introspection introspect endpoint opts next w r s).1 =
          [(token, applyOptions endpoint opts)] ∧
        (((nextCalls (Introspection introspect endpoint opts next w r s).1).map
            (fun c => FromContext c.2.Context) = [.ok (res, none)] ∧ res ≠ none ∨
          (nextCalls (Introspection introspect endpoint opts next w r s).1).map
            (fun c => FromContext c.2.Context) = [.ok (none, err)] ∧ err ≠ none) ↔
          (res ≠ none ∧ err = none ∨ res = none ∧ err ≠ none))) ∧
    (strings.HasPrefix (r.Header.Get (bytes "Authorization")) (bytes "Bearer ") = false ∨
      (∃ token cache v s1,
        r.Header.Get (bytes "Authorization") = bytes "Bearer " ++ token ∧
        (applyOptions endpoint opts).cache = some cache ∧
        cache.Get token s = (some v, s1)) ∨
      ∃ token s1 res err s2,
        r.Header.Get (bytes "Authorization") = bytes "Bearer " ++ token ∧
        (((applyOptions endpoint opts).cache = none ∧ s1 = s) ∨
          ∃ cache, (applyOptions endpoint opts).cache = some cache ∧
            cache.Get token s = (none, s1)) ∧
        introspect token (applyOptions endpoint opts) s1 = ((res, err), s2)) := by
  have hmap : ∀ (r0 : Request) (res : Option Result) (err : Option GoError),
      ([(w, decorate r0 res err)] : List (ResponseWriter × Request)).map
        (fun c => FromContext c.2.Context) = [.ok (res, err)] := by
    intro r0 res err
    simp [fromContext_decorate]
  refine ⟨?_, ?_, ?_, ?_, ?_⟩
  · unfold Introspection
    rcases serve_shape introspect (applyOptions endpoint opts) next w r s with
      ⟨_, hrun⟩ | ⟨t, c, res, s1, _, _, _, hrun⟩ | ⟨t, c, s1, res, s2, _, _, _, _, hrun⟩ |
      ⟨t, c, s1, res, e, s2, _, _, _, _, hrun⟩ | ⟨t, res, err, s2, _, _, _, hrun⟩ <;>
    · rw [hrun]; rfl
  · intro hp
    have hrun : Introspection introspect endpoint opts next w r s = _ :=
      serve_noBearer introspect (applyOptions endpoint opts) next w r s
        ((bearerToken_eq_none_iff _).2 hp)
    rw [hrun]
    exact ⟨hmap r none (some ErrNoBearer), rfl⟩
  · intro token cache v s1 hhd hc hg
    have hrun : Introspection introspect endpoint opts next w r s = _ :=
      serve_hit introspect (applyOptions endpoint opts) next w r s token cache v s1
        ((bearerToken_eq_some_iff _ _).2 hhd) hc hg
    rw [hrun]
    exact ⟨hmap r (some v) none, rfl⟩
  · intro token s1 res err s2 hhd hmiss hi
    have hb := (bearerToken_eq_some_iff _ _).2 hhd
    have hrun : nextCalls (Introspection introspect endpoint opts next w r s).1 =
          [(w, decorate r res err)] ∧
        introspectCalls (Introspection introspect endpoint opts next w r s).1 =
          [(token, applyOptions endpoint opts)] := by
      unfold Introspection
      rcases hmiss with ⟨hc, rfl⟩ | ⟨cache, hc, hg⟩
      · rw [serve_noCache introspect _ next w r _ token hb hc,
          introspectAndServe_noStore introspect _ next w r _ token res err s2 hi (Or.inr hc)]
        exact ⟨rfl, rfl⟩
      · rw [serve_miss introspect _ next w r s token cache s1 hb hc hg]
        cases err with
        | none =>
          rw [introspectAndServe_store introspect _ next w r s1 token cache res s2 hi hc]
          exact ⟨rfl, rfl⟩
        | some e =>
          rw [introspectAndServe_noStore introspect _ next w r s1 token res (some e) s2 hi
            (Or.inl (by simp))]
          exact ⟨rfl, rfl⟩
    rw [hrun.1, hrun.2, hmap r res err]
    refine ⟨rfl, rfl, ?_⟩
    constructor
    · rintro (⟨h, hne⟩ | ⟨h, hne⟩)
      · simp only [List.cons.injEq, Except.ok.injEq, Prod.mk.injEq, and_true, true_and] at h
        exact Or.inl ⟨hne, h⟩
      · simp only [List.cons.injEq, Except.ok.injEq, Prod.mk.injEq, and_true] at h
        exact Or.inr ⟨h, hne⟩
    · rintro (⟨hne, h⟩ | ⟨h, hne⟩)
      · exact Or.inl ⟨by rw [h], hne⟩
      · exact Or.inr ⟨by rw [h], hne⟩
  · rcases serve_shape introspect (applyOptions endpoint opts) next w r s with
      ⟨hb, _⟩ | ⟨t, c, res, s1, hb, hc, hg, _⟩ | ⟨t, c, s1, res, s2, hb, hc, hg, hi, _⟩ |
      ⟨t, c, s1, res, e, s2, hb, hc, hg, hi, _⟩ | ⟨t, res, err, s2, hb, hc, hi, _⟩
    · exact Or.inl ((bearerToken_eq_none_iff _).1 hb)
    · exact Or.inr (Or.inl ⟨t, c, res, s1, (bearerToken_eq_some_iff _ _).1 hb, hc, hg⟩)
    · exact Or.inr (Or.inr ⟨t, s1, res, none, s2, (bearerToken_eq_some_iff _ _).1 hb,
        Or.inr ⟨c, hc, hg⟩, hi⟩)
    · exact Or.inr (Or.inr ⟨t, s1, res, some e, s2, (bearerToken_eq_some_iff _ _).1 hb,
        Or.inr ⟨c, hc, hg⟩, hi⟩)
    · exact Or.inr (Or.inr ⟨t, s, res, err, s2, (bearerToken_eq_some_iff _ _).1 hb,
        Or.inl ⟨hc, rfl⟩, hi⟩)

/-- C10 amended, evaluated on its third path: no cache, "Bearer abc123", and an
introspect that returns a Result together with an error; FromContext returns both. -/
theorem C10_outcome_shape_witness :
    (nextCalls (Introspection
        (stubIntrospect (some ⟨true, []⟩, some ⟨2, bytes "unexpected EOF"⟩))
        (bytes "https://as.example/introspect") [] recordNext ⟨1⟩
        (requestWith "Bearer abc123") emptyWorld).1).map (fun c => FromContext c.2.Context)
      = [.ok (some ⟨true, []⟩, some ⟨2, bytes "unexpected EOF"⟩)] ∧
    introspectCalls (Introspection
        (stubIntrospect (some ⟨true, []⟩, some ⟨2, bytes "unexpected EOF"⟩))
        (bytes "https://as.example/introspect") [] recordNext ⟨1⟩
        (requestWith "Bearer abc123") emptyWorld).1 =
      [(bytes "abc123", applyOptions (bytes "https://as.example/introspect") [])] :=
  let h := (C10_outcome_shape
    (stubIntrospect (some ⟨true, []⟩, some ⟨2, bytes "unexpected EOF"⟩))
    (bytes "https://as.example/introspect") [] recordNext ⟨1⟩
    (requestWith "Bearer abc123") emptyWorld).2.2.2.1 (bytes "abc123") emptyWorld
    (some ⟨true, []⟩) (some ⟨2, bytes "unexpected EOF"⟩) ⟨[], 1, []⟩ (by decide)
    (Or.inl ⟨rfl, rfl⟩) rfl
  ⟨h.1, h.2.1⟩

/-! ## Populating the cache -/

/-- C5: the handler calls cache.Store if and only if a cache is configured, a bearer
token was extracted, cache.Get missed and introspect returned a nil error, and then
exactly once, with the token, the Result introspect returned and the configured
lifetime.  When introspect returns a non-nil error nothing is stored; if moreover
cache.Get, introspect, the wrapped handler and the time in between leave the entry of
the token as it is, a later request with the same token calls introspect again. -/
theorem C5_cache_population {σ : Type} (introspect : Introspect σ) (endpoint : GoString)
    (opts : List (Setter σ)) (next : Handler σ) (w : ResponseWriter) (r : Request) (s : σ) :
    (storeCalls (Introspection introspect endpoint opts next w r s).1 ≠ [] ↔
      ∃ cache token s1 res s2,
        (applyOptions endpoint opts).cache = some cache ∧
        r.Header.Get (bytes "Authorization") = bytes "Bearer " ++ token ∧
        cache.Get token s = (none, s1) ∧
        introspect token (applyOptions endpoint opts) s1 = ((res, none), s2)) ∧
    (∀ cache token s1 res s2,
        (applyOptions endpoint opts).cache = some cache →
        r.Header.Get (bytes "Authorization") = bytes "Bearer " ++ token →
        cache.Get token s = (none, s1) →
        introspect token (applyOptions endpoint opts) s1 = ((res, none), s2) →
        storeCalls (Introspection introspect endpoint opts next w r s).1 =
          [(token, res, (applyOptions endpoint opts).cacheExp)] ∧
        (Introspection introspect endpoint opts next w r s).2 =
          next w (decorate r res none)
            (cache.Store token res (applyOptions endpoint opts).cacheExp s2)) ∧
    (∀ cache token s1 res e s2 (w2 : ResponseWriter) (r2 : Request) (idle : σ → σ),
        (applyOptions endpoint opts).cache = some cache →
        r.Header.Get (bytes "Authorization") = bytes "Bearer " ++ token →
        r2.Header.Get (bytes "Authorization") = bytes "Bearer " ++ token →
        cache.Get token s = (none, s1) →
        introspect token (applyOptions endpoint opts) s1 = ((res, some e), s2) →
        (∀ y, (cache.Get token (cache.Get token y).2).1 = (cache.Get token y).1) →
        (∀ y, (cache.Get token (introspect token (applyOptions endpoint opts) y).2).1 =
          (cache.Get token y).1) →
        (∀ w0 r0 y, (cache.Get token (next w0 r0 y)).1 = (cache.Get token y).1) →
        (∀ y, (cache.Get token (idle y)).1 = (cache.Get token y).1) →
        storeCalls (Introspection introspect endpoint opts next w r s).1 = [] ∧
        (Introspection introspect endpoint opts next w r s).2 =
          next w (decorate r res (some e)) s2 ∧
        introspectCalls (Introspection introspect endpoint opts next w2 r2
          (idle (Introspection introspect endpoint opts next w r s).2)).1 =
          [(token, applyOptions endpoint opts)]) := by
  have hstored : ∀ cache token s1 res s2,
      (applyOptions endpoint opts).cache = some cache →
      r.Header.Get (bytes "Authorization") = bytes "Bearer " ++ token →
      cache.Get token s = (none, s1) →
      introspect token (applyOptions endpoint opts) s1 = ((res, none), s2) →
      Introspection introspect endpoint opts next w r s =
        ([.cacheGet token, .introspect token (applyOptions endpoint opts),
            .cacheStore token res (applyOptions endpoint opts).cacheExp,
            .next w (decorate r res none)],
          next w (decorate r res none)
            (cache.Store token res (applyOptions endpoint opts).cacheExp s2)) := by
    intro cache token s1 res s2 hc hhd hg hi
    unfold Introspection
    rw [serve_miss introspect _ next w r s token cache s1
        ((bearerToken_eq_some_iff _ _).2 hhd) hc hg,
      introspectAndServe_store introspect _ next w r s1 token cache res s2 hi hc]
  refine ⟨⟨?_, ?_⟩, ?_, ?_⟩
  · intro hne
    unfold Introspection at hne
    rcases serve_shape introspect (applyOptions endpoint opts) next w r s with
      ⟨_, hrun⟩ | ⟨t, c, res, s1, _, _, _, hrun⟩ | ⟨t, c, s1, res, s2, hb, hc, hg, hi, _⟩ |
      ⟨t, c, s1, res, e, s2, _, _, _, _, hrun⟩ | ⟨t, res, err, s2, _, _, _, hrun⟩
    · rw [hrun] at hne; exact absurd rfl hne
    · rw [hrun] at hne; exact absurd rfl hne
    · exact ⟨c, t, s1, res, s2, hc, (bearerToken_eq_some_iff _ _).1 hb, hg, hi⟩
    · rw [hrun] at hne; exact absurd rfl hne
    · rw [hrun] at hne; exact absurd rfl hne
  · rintro ⟨cache, token, s1, res, s2, hc, hhd, hg, hi⟩
    rw [hstored cache token s1 res s2 hc hhd hg hi]
    simp [storeCalls]
  · intro cache token s1 res s2 hc hhd hg hi
    rw [hstored cache token s1 res s2 hc hhd hg hi]
    exact ⟨rfl, rfl⟩
  · intro cache token s1 res e s2 w2 r2 idle hc hhd hhd2 hg hi hGet hInt hNext hIdle
    have hrun : Introspection introspect endpoint opts next w r s =
        ([.cacheGet token, .introspect token (applyOptions endpoint opts),
            .next w (decorate r res (some e))],
          next w (decorate r res (some e)) s2) := by
      unfold Introspection
      rw [serve_miss introspect _ next w r s token cache s1
          ((bearerToken_eq_some_iff _ _).2 hhd) hc hg,
        introspectAndServe_noStore introspect _ next w r s1 token res (some e) s2 hi
          (Or.inl (by simp))]
    rw [hrun]
    refine ⟨rfl, rfl, ?_⟩
    have hs1 : s1 = (cache.Get token s).2 := by rw [hg]
    have hs2 : s2 = (introspect token (applyOptions endpoint opts) s1).2 := by rw [hi]
    have hobs : (cache.Get token (idle (next w (decorate r res (some e)) s2))).1 = none := by
      rw [hIdle, hNext, hs2, hInt, hs1, hGet, hg]
    have hg2 : cache.Get token (idle (next w (decorate r res (some e)) s2)) =
        (none, (cache.Get token (idle (next w (decorate r res (some e)) s2))).2) :=
      Prod.ext hobs rfl
    unfold Introspection
    rw [serve_miss introspect _ next w2 r2 _ token cache _
      ((bearerToken_eq_some_iff _ _).2 hhd2) hc hg2]
    exact introspectCalls_introspectAndServe introspect _ next w2 r2 _ token

/-- C5 evaluated: with the in-memory cache and an endpoint that fails, nothing is
stored and a second request with the same token reaches the endpoint again. -/
theorem C5_cache_population_witness :
    storeCalls (Introspection (stubIntrospect (none, some ⟨2, bytes "timeout"⟩))
      (bytes "https://as.example/introspect") [withCache memCache 60000000000] recordNext ⟨1⟩
      (requestWith "Bearer abc123") emptyWorld).1 = [] ∧
    (Introspection (stubIntrospect (none, some ⟨2, bytes "timeout"⟩))
      (bytes "https://as.example/introspect") [withCache memCache 60000000000] recordNext ⟨1⟩
      (requestWith "Bearer abc123") emptyWorld).2 =
      recordNext ⟨1⟩ (decorate (requestWith "Bearer abc123") none
        (some ⟨2, bytes "timeout"⟩)) ⟨[], 1, []⟩ ∧
    introspectCalls (Introspection (stubIntrospect (none, some ⟨2, bytes "timeout"⟩))
      (bytes "https://as.example/introspect") [withCache memCache 60000000000] recordNext ⟨2⟩
      (requestWith "Bearer abc123")
      (id (Introspection (stubIntrospect (none, some ⟨2, bytes "timeout"⟩))
        (bytes "https://as.example/introspect") [withCache memCache 60000000000] recordNext
        ⟨1⟩ (requestWith "Bearer abc123") emptyWorld).2)).1 =
      [(bytes "abc123",
        applyOptions (bytes "https://as.example/introspect") [withCache memCache 60000000000])] :=
  (C5_cache_population (stubIntrospect (none, some ⟨2, bytes "timeout"⟩))
    (bytes "https://as.example/introspect") [withCache memCache 60000000000] recordNext ⟨1⟩
    (requestWith "Bearer abc123") emptyWorld).2.2 memCache (bytes "abc123") emptyWorld none
    ⟨2, bytes "timeout"⟩ ⟨[], 1, []⟩ ⟨2⟩ (requestWith "Bearer abc123") id rfl (by decide)
    (by decide) (by decide) rfl (fun _ => rfl) (fun _ => rfl) (fun _ _ _ => rfl) (fun _ => rfl)

/-! ## Two requests with the same token -/

/-- C8: two consecutive requests with the same bearer token through the same
middleware, with a cache whose Get returns what was last stored for the token, and
with a wrapped handler and an interval between the requests that leave that entry
alone.  If the first request misses the cache and introspect succeeds with a Result,
then the first request calls introspect once and stores the Result, the second calls
introspect zero times, and FromContext returns the stored Result and a nil error in
the second wrapped handler: one remote call in all. -/
theorem C8_second_request_hits_cache {σ : Type} (introspect : Introspect σ)
    (endpoint : GoString) (opts : List (Setter σ)) (next : Handler σ)
    (w1 w2 : ResponseWriter) (r1 r2 : Request) (s : σ) (token : GoString) (cache : Cache σ)
    (v : Result) (s1 s2 : σ) (idle : σ → σ)
    (hcache : (applyOptions endpoint opts).cache = some cache)
    (hhd1 : r1.Header.Get (bytes "Authorization") = bytes "Bearer " ++ token)
    (hhd2 : r2.Header.Get (bytes "Authorization") = bytes "Bearer " ++ token)
    (hmiss : cache.Get token s = (none, s1))
    (hint : introspect token (applyOptions endpoint opts) s1 = ((some v, none), s2))
    (hstore : ∀ x ttl y, (cache.Get token (cache.Store token (some x) ttl y)).1 = some x)
    (hnext : ∀ w0 r0 y, (cache.Get token (next w0 r0 y)).1 = (cache.Get token y).1)
    (hidle : ∀ y, (cache.Get token (idle y)).1 = (cache.Get token y).1) :
    (introspectCalls (Introspection introspect endpoint opts next w1 r1 s).1).length = 1 ∧
    storeCalls (Introspection introspect endpoint opts next w1 r1 s).1 =
      [(token, some v, (applyOptions endpoint opts).cacheExp)] ∧
    (introspectCalls (Introspection introspect endpoint opts next w2 r2
      (idle (Introspection introspect endpoint opts next w1 r1 s).2)).1).length = 0 ∧
    (∃ r3, nextCalls (Introspection introspect endpoint opts next w2 r2
        (idle (Introspection introspect endpoint opts next w1 r1 s).2)).1 = [(w2, r3)] ∧
      FromContext r3.Context = .ok (some v, none)) ∧
    (introspectCalls ((Introspection introspect endpoint opts next w1 r1 s).1 ++
      (Introspection introspect endpoint opts next w2 r2
        (idle (Introspection introspect endpoint opts next w1 r1 s).2)).1)).length = 1 := by
  have hrun1 : Introspection introspect endpoint opts next w1 r1 s =
      ([.cacheGet token, .introspect token (applyOptions endpoint opts),
          .cacheStore token (some v) (applyOptions endpoint opts).cacheExp,
          .next w1 (decorate r1 (some v) none)],
        next w1 (decorate r1 (some v) none)
          (cache.Store token (some v) (applyOptions endpoint opts).cacheExp s2)) := by
    unfold Introspection
    rw [serve_miss introspect _ next w1 r1 s token cache s1
        ((bearerToken_eq_some_iff _ _).2 hhd1) hcache hmiss,
      introspectAndServe_store introspect _ next w1 r1 s1 token cache (some v) s2 hint hcache]
  rw [hrun1]
  have hobs : (cache.Get token (idle (next w1 (decorate r1 (some v) none)
      (cache.Store token (some v) (applyOptions endpoint opts).cacheExp s2)))).1 = some v := by
    rw [hidle, hnext, hstore]
  have hg2 : cache.Get token (idle (next w1 (decorate r1 (some v) none)
      (cache.Store token (some v) (applyOptions endpoint opts).cacheExp s2))) =
      (some v, (cache.Get token (idle (next w1 (decorate r1 (some v) none)
        (cache.Store token (some v) (applyOptions endpoint opts).cacheExp s2)))).2) :=
    Prod.ext hobs rfl
  have hrun2 := serve_hit introspect (applyOptions endpoint opts) next w2 r2 _ token cache v _
    ((bearerToken_eq_some_iff _ _).2 hhd2) hcache hg2
  have hrun2i : Introspection introspect endpoint opts next w2 r2
      (idle (next w1 (decorate r1 (some v) none)
        (cache.Store token (some v) (applyOptions endpoint opts).cacheExp s2))) = _ := hrun2
  rw [hrun2i]
  exact ⟨rfl, rfl, rfl, ⟨decorate r2 (some v) none, rfl, fromContext_decorate r2 _ _⟩, rfl⟩

/-- C8 with the in-memory cache, an endpoint that answers Active true and two
requests carrying "Bearer abc123". -/
theorem C8_second_request_hits_cache_witness :
    memCache.Get (bytes "abc123") emptyWorld = (none, emptyWorld) ∧
    (introspectCalls (Introspection (stubIntrospect (some ⟨true, []⟩, none))
      (bytes "https://as.example/introspect") [withCache memCache 60000000000] recordNext ⟨1⟩
      (requestWith "Bearer abc123") emptyWorld).1).length = 1 ∧
    storeCalls (Introspection (stubIntrospect (some ⟨true, []⟩, none))
      (bytes "https://as.example/introspect") [withCache memCache 60000000000] recordNext ⟨1⟩
      (requestWith "Bearer abc123") emptyWorld).1 =
      [(bytes "abc123", some ⟨true, []⟩,
        (applyOptions (bytes "https://as.example/introspect")
          [withCache memCache 60000000000]).cacheExp)] ∧
    (introspectCalls (Introspection (stubIntrospect (some ⟨true, []⟩, none))
      (bytes "https://as.example/introspect") [withCache memCache 60000000000] recordNext ⟨2⟩
      (requestWith "Bearer abc123")
      (id (Introspection (stubIntrospect (some ⟨true, []⟩, none))
        (bytes "https://as.example/introspect") [withCache memCache 60000000000] recordNext
        ⟨1⟩ (requestWith "Bearer abc123") emptyWorld).2)).1).length = 0 ∧
    (∃ r3, nextCalls (Introspection (stubIntrospect (some ⟨true, []⟩, none))
        (bytes "https://as.example/introspect") [withCache memCache 60000000000] recordNext
        ⟨2⟩ (requestWith "Bearer abc123")
        (id (Introspection (stubIntrospect (some ⟨true, []⟩, none))
          (bytes "https://as.example/introspect") [withCache memCache 60000000000] recordNext
          ⟨1⟩ (requestWith "Bearer abc123") emptyWorld).2)).1 = [(⟨2⟩, r3)] ∧
      FromContext r3.Context = .ok (some ⟨true, []⟩, none)) ∧
    (introspectCalls ((Introspection (stubIntrospect (some ⟨true, []⟩, none))
      (bytes "https://as.example/introspect") [withCache memCache 60000000000] recordNext ⟨1⟩
      (requestWith "Bearer abc123") emptyWorld).1 ++
      (Introspection (stubIntrospect (some ⟨true, []⟩, none))
        (bytes "https://as.example/introspect") [withCache memCache 60000000000] recordNext
        ⟨2⟩ (requestWith "Bearer abc123")
        (id (Introspection (stubIntrospect (some ⟨true, []⟩, none))
          (bytes "https://as.example/introspect") [withCache memCache 60000000000] recordNext
          ⟨1⟩ (requestWith "Bearer abc123") emptyWorld).2)).1)).length = 1 :=
  ⟨by decide, C8_second_request_hits_cache (stubIntrospect (some ⟨true, []⟩, none))
    (bytes "https://as.example/introspect") [withCache memCache 60000000000] recordNext ⟨1⟩ ⟨2⟩
    (requestWith "Bearer abc123") (requestWith "Bearer abc123") emptyWorld (bytes "abc123")
    memCache ⟨true, []⟩ emptyWorld ⟨[], 1, []⟩ id rfl (by decide) (by decide) (by decide) rfl
    (fun x _ y => by simp [memCache, List.lookup]) (fun _ _ _ => rfl) (fun _ => rfl)⟩

end OAuthIntrospection
